import Mathlib

/-!
Settings merge and application summary table of the cf CLI

A shallow embedding of

* `actor/pushaction/command_line_settings.go`: `CommandLineSettings`,
  `ApplicationPath`, `absoluteProvidedAppPath` and `OverrideManifestSettings`;
* `command/v2/shared/application_info.go`: the key/value table that
  `DisplayAppSummary` builds and hands to the UI.

Go strings are Lean `String`s, `uint64` is `Nat`, `int` is `Int`. The merge does
no arithmetic on its numeric fields (it only compares them with zero and copies
them), so no wrap-around is involved there; the one `uint64` product of the
summary table is reduced modulo `2 ^ 64` explicitly.
-/

namespace types

/-- The nullable integer `types.NullInt`: a value together with the flag saying
whether it was set. The declaration is outside the translated files; the two
fields are the ones the code reads (`.IsSet`, `.Value`). -/
structure NullInt where
  Value : Int
  IsSet : Bool
  deriving DecidableEq, Repr

end types

namespace manifest

/-- The record `manifest.Application`. Its declaration is outside the translated
files: the named fields are the ones `OverrideManifestSettings` reads or writes,
and `other` stands for every remaining field of the record, whatever it is. -/
structure Application (ρ : Type) where
  BuildpackName : String
  Command : String
  DiskQuota : Nat
  DockerImage : String
  DockerPassword : String
  DockerUsername : String
  HealthCheckTimeout : Int
  HealthCheckType : String
  Instances : types.NullInt
  Memory : Nat
  Name : String
  Path : String
  StackName : String
  other : ρ
  deriving DecidableEq, Repr

end manifest

namespace filepath

/-- The two functions of Go's `path/filepath` that the settings code calls.
They belong to the Go standard library and depend on the operating system, so
the embedding takes them as a parameter; `filepath.unix` below is the
implementation for Unix paths. -/
structure Impl where
  IsAbs : String → Bool
  Join : String → String → String

/-- State of the output buffer of `Clean`: the bytes written so far and the
index `dotdot` below which the buffer cannot backtrack. -/
structure CleanState where
  out : List Char
  dotdot : Nat

/-- The backtracking of `Clean` at a `..` element,
`out.w--; for out.w > dotdot && out.index(out.w) != '/' { out.w-- }`,
on the reversed buffer: the head `c` is the byte at index `out.w` after the
decrement and the tail is the buffer that remains, of length `out.w`. The
result is the remaining buffer, reversed. -/
def backtrack (dotdot : Nat) : List Char → List Char
  | [] => []
  | c :: rev =>
    if dotdot < rev.length ∧ c ≠ '/' then backtrack dotdot rev else rev

/-- The `..` case of the switch of `Clean`: remove the last element of the
buffer when it can backtrack, append `..` when it cannot and the path is not
rooted. -/
def dotdotElement (rooted : Bool) (st : CleanState) : CleanState :=
  if st.dotdot < st.out.length then
    -- can backtrack
    { st with out := (backtrack st.dotdot st.out.reverse).reverse }
  else if ¬ rooted then
    -- cannot backtrack, but not rooted, so append .. element
    let out1 := if 0 < st.out.length then st.out ++ ['/'] else st.out
    let out2 := out1 ++ ['.', '.']
    { out := out2, dotdot := out2.length }
  else st

/-- The main loop of Go's `Clean` (Unix), `for r < n { switch ... }`, on the
unread part `path[r:]` of the path. Each round consumes at least one character,
so `fuel` equal to the length of the path is enough. -/
def cleanLoop (rooted : Bool) : Nat → List Char → CleanState → CleanState
  | 0, _, st => st
  | _, [], st => st
  | fuel + 1, '/' :: rest, st =>
    -- empty path element
    cleanLoop rooted fuel rest st
  | fuel + 1, ['.'], st =>
    -- . element at the end of the path
    cleanLoop rooted fuel [] st
  | fuel + 1, '.' :: '/' :: rest, st =>
    -- . element
    cleanLoop rooted fuel ('/' :: rest) st
  | fuel + 1, ['.', '.'], st =>
    -- .. element at the end of the path
    cleanLoop rooted fuel [] (dotdotElement rooted st)
  | fuel + 1, '.' :: '.' :: '/' :: rest, st =>
    -- .. element
    cleanLoop rooted fuel ('/' :: rest) (dotdotElement rooted st)
  | fuel + 1, c :: rest, st =>
    -- real path element: add a slash if needed, then copy the element
    let w := st.out.length
    let out1 := if (rooted ∧ w ≠ 1) ∨ (¬ rooted ∧ w ≠ 0) then st.out ++ ['/'] else st.out
    let elem := (c :: rest).takeWhile (fun x => x ≠ '/')
    cleanLoop rooted fuel ((c :: rest).dropWhile (fun x => x ≠ '/'))
      { st with out := out1 ++ elem }

/-- Go's `filepath.Clean` for Unix paths (standard library, not part of the
repository): the shortest path equivalent to `path` by purely lexical
processing. Go works on bytes and the model on characters; the only bytes the
algorithm tests are `/` and `.`, which never occur inside a multi-byte UTF-8
sequence, so both agree on valid UTF-8. -/
def Clean (path : String) : String :=
  if path = "" then "."
  else
    let rooted : Bool := path.data.head? = some '/'
    let st0 : CleanState := if rooted then ⟨['/'], 1⟩ else ⟨[], 0⟩
    let r0 := if rooted then path.data.drop 1 else path.data
    let st := cleanLoop rooted path.data.length r0 st0
    -- Turn empty string into "."
    if st.out.length = 0 then "." else String.mk st.out

/-- Go's `filepath.Join` for Unix paths, at two elements: leading empty
elements are skipped, the remaining ones are joined with the separator and the
result is cleaned; when every element is empty the result is empty. -/
def unixJoin (a b : String) : String :=
  if a ≠ "" then Clean (a ++ "/" ++ b)
  else if b ≠ "" then Clean b
  else ""

/-- Go's `filepath.IsAbs` for Unix paths: `strings.HasPrefix(path, "/")`. -/
def unixIsAbs (path : String) : Bool :=
  path.data.head? = some '/'

/-- The Unix implementation of the two `path/filepath` functions. -/
def unix : Impl :=
  { IsAbs := unixIsAbs, Join := unixJoin }

end filepath

namespace pushaction

/-- The record `CommandLineSettings` (command_line_settings.go, lines 11-26). -/
structure CommandLineSettings where
  BuildpackName : String
  Command : String
  CurrentDirectory : String
  DiskQuota : Nat
  DockerImage : String
  DockerPassword : String
  DockerUsername : String
  HealthCheckTimeout : Int
  HealthCheckType : String
  Instances : types.NullInt
  Memory : Nat
  Name : String
  ProvidedAppPath : String
  StackName : String
  deriving DecidableEq, Repr

/-- Method `absoluteProvidedAppPath` (lines 113-118). -/
def absoluteProvidedAppPath (fp : filepath.Impl) (settings : CommandLineSettings) : String :=
  if ¬ fp.IsAbs settings.ProvidedAppPath then
    fp.Join settings.CurrentDirectory settings.ProvidedAppPath
  else
    settings.ProvidedAppPath

/-- Method `ApplicationPath` (lines 28-33). -/
def ApplicationPath (fp : filepath.Impl) (settings : CommandLineSettings) : String :=
  if settings.ProvidedAppPath ≠ "" then
    absoluteProvidedAppPath fp settings
  else
    settings.CurrentDirectory

/-- Method `OverrideManifestSettings` (lines 35-92): the assignments of the
source, in the source's order, each on the record produced by the previous
one. -/
def OverrideManifestSettings {ρ : Type} (fp : filepath.Impl) (settings : CommandLineSettings)
    (app : manifest.Application ρ) : manifest.Application ρ :=
  let app := if settings.BuildpackName ≠ "" then
    { app with BuildpackName := settings.BuildpackName } else app
  let app := if settings.Command ≠ "" then
    { app with Command := settings.Command } else app
  let app := if settings.DiskQuota ≠ 0 then
    { app with DiskQuota := settings.DiskQuota } else app
  let app := if settings.DockerImage ≠ "" then
    { app with DockerImage := settings.DockerImage } else app
  let app := if settings.DockerUsername ≠ "" then
    { app with DockerUsername := settings.DockerUsername } else app
  let app := if settings.DockerPassword ≠ "" then
    { app with DockerPassword := settings.DockerPassword } else app
  let app := if settings.HealthCheckTimeout ≠ 0 then
    { app with HealthCheckTimeout := settings.HealthCheckTimeout } else app
  let app := if settings.HealthCheckType ≠ "" then
    { app with HealthCheckType := settings.HealthCheckType } else app
  let app := if settings.Instances.IsSet then
    { app with Instances := settings.Instances } else app
  let app := if settings.Memory ≠ 0 then
    { app with Memory := settings.Memory } else app
  let app := if settings.Name ≠ "" then
    { app with Name := settings.Name } else app
  let app := if settings.ProvidedAppPath ≠ "" then
    { app with Path := absoluteProvidedAppPath fp settings } else app
  let app := if app.Path = "" then
    { app with Path := settings.CurrentDirectory } else app
  let app := if settings.StackName ≠ "" then
    { app with StackName := settings.StackName } else app
  app

end pushaction

namespace goslice

/-- A row of a table, a Go `[]string`. Rows are built once and never written to
afterwards, so a row is modelled by its list of elements. -/
abbrev Row := List String

/-- A Go slice header over rows: the backing array (its index in the store),
the offset of the slice in that array, its length and its capacity. -/
structure Slice where
  array : Nat
  off : Nat
  len : Nat
  cap : Nat
  deriving DecidableEq, Repr

/-- The backing arrays allocated so far; an array has a fixed number of cells. -/
abbrev Store := List (List Row)

/-- The elements `s[0], ..., s[len(s)-1]` the slice `s` denotes in the store. -/
def elems (st : Store) (s : Slice) : List Row :=
  ((st.getD s.array []).drop s.off).take s.len

/-- A composite literal `[][]string{r1, ..., rn}`: a fresh backing array holding
exactly the rows, and a slice of length and capacity `n` over it. -/
def literal (st : Store) (rows : List Row) : Store × Slice :=
  (st ++ [rows], ⟨st.length, 0, rows.length, rows.length⟩)

/-- The slice expression `s[:j]`; Go panics when `j > cap(s)`. -/
def sliceTo (s : Slice) (j : Nat) : Option Slice :=
  if j ≤ s.cap then some { s with len := j } else none

/-- The slice expression `s[i:]`; Go panics when `i > len(s)`. -/
def sliceFrom (s : Slice) (i : Nat) : Option Slice :=
  if i ≤ s.len then some ⟨s.array, s.off + i, s.len - i, s.cap - i⟩ else none

/-- Writing the rows `xs` into the cells of an array from index `pos` on. -/
def writeAt (cells : List Row) (pos : Nat) (xs : List Row) : List Row :=
  cells.take pos ++ xs ++ cells.drop (pos + xs.length)

/-- Go's built-in `append(s, xs...)`. When the capacity of `s` suffices the rows
are written in place, into the backing array of `s` right after its last
element (whatever other slice shares those cells); otherwise a new array is
allocated, of a capacity chosen by the runtime (`grow`, never less than what is
needed), and the elements of `s` and the rows are copied there. The rows `xs`
are the values the argument slice holds when `append` is called. -/
def append (grow : Nat → Nat → Nat) (st : Store) (s : Slice) (xs : List Row) : Store × Slice :=
  if s.len + xs.length ≤ s.cap then
    (st.set s.array (writeAt (st.getD s.array []) (s.off + s.len) xs),
      { s with len := s.len + xs.length })
  else
    let needed := s.len + xs.length
    let newcap := max needed (grow s.cap needed)
    (st ++ [elems st s ++ xs ++ List.replicate (newcap - needed) []],
      ⟨st.length, 0, needed, newcap⟩)

end goslice

namespace bytefmt

/-- The constant `bytefmt.MEGABYTE` (`1 << 20`) of the bytefmt library. -/
def MEGABYTE : Nat := 1024 * 1024

end bytefmt

namespace v2action

/-- The fields of `v2action.ApplicationSummary` (with its embedded
`Application` and its `Stack`) that `DisplayAppSummary` reads. The declaration
is outside the translated files; routes, times and instances are kept abstract. -/
structure ApplicationSummary (Route Time Instance : Type) where
  Name : String
  State : String
  Instances : types.NullInt
  Memory : Int
  PackageUpdatedAt : Time
  Command : String
  DetectedStartCommand : String
  StackName : String
  IsolationSegment : String
  RunningInstances : List Instance
  Routes : List Route

end v2action

namespace command

/-- A value of the `map[string]interface{}` passed to `TranslateText`. -/
inductive TemplateValue where
  | str (s : String)
  | int (i : Int)
  deriving DecidableEq, Repr

/-- The methods of the interface `command.UI` used to build the table. The
variadic maps of `TranslateText` are a list of association lists. -/
structure UI (Time : Type) where
  TranslateText : String → List (List (String × TemplateValue)) → String
  UserFriendlyDate : Time → String

end command

namespace shared

open goslice

/-- Functions and methods that `DisplayAppSummary` calls and that are declared
outside the translated files: `strings.ToLower`, `bytefmt.ByteSize`,
`Route.String`, and the methods `StartingOrRunningInstanceCount` and
`CalculatedBuildpack` of the summary. They are parameters of the embedding. -/
structure Externals (Route Time Instance : Type) where
  ToLower : String → String
  ByteSize : Nat → String
  routeString : Route → String
  StartingOrRunningInstanceCount : v2action.ApplicationSummary Route Time Instance → Int
  CalculatedBuildpack : v2action.ApplicationSummary Route Time Instance → String

/-- The conversion `uint64(x)` of a Go `int`. -/
def uint64 (x : Int) : Nat :=
  (x % (2 ^ 64 : Int)).toNat

variable {Route Time Instance : Type}

/-- The rows of the composite literal of `DisplayAppSummary` (lines 16-40):
`instances`, `usage` and `routes` are computed as in the source. -/
def tableLiteral (ext : Externals Route Time Instance) (ui : command.UI Time)
    (appSummary : v2action.ApplicationSummary Route Time Instance) : List Row :=
  let instances := toString (ext.StartingOrRunningInstanceCount appSummary) ++ "/" ++
    toString appSummary.Instances.Value
  let usage := ui.TranslateText
    "\x7b\x7b.MemorySize\x7d\x7d x \x7b\x7b.NumInstances\x7d\x7d instances"
    [[("MemorySize",
        .str (ext.ByteSize ((uint64 appSummary.Memory * bytefmt.MEGABYTE) % 2 ^ 64))),
      ("NumInstances", .int appSummary.Instances.Value)]]
  let formattedRoutes := appSummary.Routes.map ext.routeString
  let routes := String.intercalate ", " formattedRoutes
  [ [ui.TranslateText "name:" [], appSummary.Name],
    [ui.TranslateText "requested state:" [], ext.ToLower appSummary.State],
    [ui.TranslateText "instances:" [], instances],
    [ui.TranslateText "usage:" [], usage],
    [ui.TranslateText "routes:" [], routes],
    [ui.TranslateText "last uploaded:" [], ui.UserFriendlyDate appSummary.PackageUpdatedAt],
    [ui.TranslateText "stack:" [], appSummary.StackName],
    [ui.TranslateText "buildpack:" [], ext.CalculatedBuildpack appSummary] ]

/-- The row appended when `displayStartCommand` is true (lines 43-47). -/
def startCommandRow (ui : command.UI Time)
    (appSummary : v2action.ApplicationSummary Route Time Instance) : Row :=
  let startCommand := appSummary.Command
  let startCommand := if startCommand = "" then appSummary.DetectedStartCommand else startCommand
  [ui.TranslateText "start command:" [], startCommand]

/-- Lines 31-48 of `DisplayAppSummary`: the slice `table` (and the store it
lives in) before the isolation segment is looked at. -/
def tableBeforeIsolationSegment (grow : Nat → Nat → Nat) (ext : Externals Route Time Instance)
    (ui : command.UI Time) (st : Store)
    (appSummary : v2action.ApplicationSummary Route Time Instance)
    (displayStartCommand : Bool) : Store × Slice :=
  let (st, table) := literal st (tableLiteral ext ui appSummary)
  if displayStartCommand then
    append grow st table [startCommandRow ui appSummary]
  else
    (st, table)

/-- Function `DisplayAppSummary` up to its first display call (lines 15-56): the
result is the table that `ui.DisplayKeyValueTableForApp` receives, or `none`
when a slice expression panics. `st` is the store of backing arrays when the
function is entered. The calls that follow (`DisplayNewline` and the instances
table) do not touch `table`. -/
def DisplayAppSummary (grow : Nat → Nat → Nat) (ext : Externals Route Time Instance)
    (ui : command.UI Time) (st : Store)
    (appSummary : v2action.ApplicationSummary Route Time Instance)
    (displayStartCommand : Bool) : Option (List Row) := do
  let (st, table) := tableBeforeIsolationSegment grow ext ui st appSummary displayStartCommand
  if appSummary.IsolationSegment ≠ "" then
    -- table = append(table[:3], append([][]string{...}, table[3:]...)...)
    let head ← sliceTo table 3
    let (st, single) := literal st
      [[ui.TranslateText "isolation segment:" [], appSummary.IsolationSegment]]
    let tail ← sliceFrom table 3
    let (st, inner) := append grow st single (elems st tail)
    let (st, table) := append grow st head (elems st inner)
    pure (elems st table)
  else
    pure (elems st table)

end shared

namespace goslice

/-- A slice is well formed in a store: its backing array is allocated and holds
at least `off + cap` cells, and its length is within its capacity. -/
def Valid (st : Store) (s : Slice) : Prop :=
  s.array < st.length ∧ s.off + s.cap ≤ (st.getD s.array []).length ∧ s.len ≤ s.cap

end goslice

namespace sample

/-- Command-line settings with every scalar field set and a relative path. -/
def cliAll : pushaction.CommandLineSettings :=
  { BuildpackName := "java_buildpack", Command := "run.sh", CurrentDirectory := "/home/u/app",
    DiskQuota := 512, DockerImage := "registry/img", DockerPassword := "pw",
    DockerUsername := "user", HealthCheckTimeout := 30, HealthCheckType := "port",
    Instances := ⟨0, true⟩, Memory := 256, Name := "foo", ProvidedAppPath := "./dist",
    StackName := "cflinuxfs2" }

/-- Command-line settings with nothing set but the working directory. -/
def cliNone : pushaction.CommandLineSettings :=
  { BuildpackName := "", Command := "", CurrentDirectory := "/home/u/app",
    DiskQuota := 0, DockerImage := "", DockerPassword := "",
    DockerUsername := "", HealthCheckTimeout := 0, HealthCheckType := "",
    Instances := ⟨0, false⟩, Memory := 0, Name := "", ProvidedAppPath := "",
    StackName := "" }

/-- A manifest application with every field present and three instances. -/
def manifestApp : manifest.Application Unit :=
  { BuildpackName := "ruby_buildpack", Command := "bundle exec", DiskQuota := 1024,
    DockerImage := "", DockerPassword := "mpw", DockerUsername := "muser",
    HealthCheckTimeout := 60, HealthCheckType := "http", Instances := ⟨3, true⟩,
    Memory := 128, Name := "bar", Path := "/srv/manifest/bits", StackName := "windows2012R2",
    other := () }

/-- A manifest application that asks for zero instances and gives no path. -/
def manifestZero : manifest.Application Unit :=
  { manifestApp with Instances := ⟨0, true⟩, Path := "" }


/-- A runtime growth policy for `append`: double the capacity, or take what is
needed when that is more. -/
def grow (cap needed : Nat) : Nat :=
  if 2 * cap < needed then needed else 2 * cap

/-- A UI that leaves every text untranslated. -/
def ui : command.UI Unit :=
  { TranslateText := fun template _ => template
    UserFriendlyDate := fun _ => "Mon 02 Jan 2006 15:04:05 UTC" }

/-- Stand-ins for the functions declared outside the translated files. -/
def ext : shared.Externals Unit Unit Unit :=
  { ToLower := fun t => String.mk (t.data.map Char.toLower)
    ByteSize := fun n => toString n ++ "B"
    routeString := fun _ => "foo.example.com"
    StartingOrRunningInstanceCount := fun _ => 1
    CalculatedBuildpack := fun _ => "ruby_buildpack" }

/-- An application summary with an isolation segment and a detected start
command only. -/
def summary : v2action.ApplicationSummary Unit Unit Unit :=
  { Name := "foo", State := "STARTED", Instances := ⟨2, true⟩, Memory := 128,
    PackageUpdatedAt := (), Command := "", DetectedStartCommand := "bundle exec rackup",
    StackName := "cflinuxfs2", IsolationSegment := "segment-1", RunningInstances := [],
    Routes := [(), ()] }

end sample

/-! ## Path functions -/
namespace filepath

theorem Clean_ne_empty (path : String) : Clean path ≠ "" := by
  have key : ∀ out : List Char, (if out.length = 0 then "." else String.mk out) ≠ "" := by
    intro out
    split
    · decide
    · rename_i h
      intro h2
      apply h
      have h3 := congrArg String.length h2
      exact h3
  unfold Clean
  split
  · decide
  · exact key _

theorem unixJoin_ne_empty (a b : String) (hb : b ≠ "") : unixJoin a b ≠ "" := by
  unfold unixJoin
  split
  · exact Clean_ne_empty _
  · exact Clean_ne_empty _

end filepath

namespace pushaction

variable {ρ : Type}

theorem ite_mk (c : Prop) [Decidable c]
    (a1 a2 a4 a5 a6 a8 a11 a12 a13 b1 b2 b4 b5 b6 b8 b11 b12 b13 : String)
    (a3 a10 b3 b10 : Nat) (a7 b7 : Int) (a9 b9 : types.NullInt) (a14 b14 : ρ) :
    (if c then manifest.Application.mk a1 a2 a3 a4 a5 a6 a7 a8 a9 a10 a11 a12 a13 a14
      else manifest.Application.mk b1 b2 b3 b4 b5 b6 b7 b8 b9 b10 b11 b12 b13 b14) =
    manifest.Application.mk (if c then a1 else b1) (if c then a2 else b2) (if c then a3 else b3)
      (if c then a4 else b4) (if c then a5 else b5) (if c then a6 else b6)
      (if c then a7 else b7) (if c then a8 else b8) (if c then a9 else b9)
      (if c then a10 else b10) (if c then a11 else b11) (if c then a12 else b12)
      (if c then a13 else b13) (if c then a14 else b14) := by
  split <;> rfl

/-- The merge, field by field: every field of the result is decided by the
CLI field of the same name alone, and the path by the two path rules. -/
theorem OverrideManifestSettings_eq (fp : filepath.Impl) (s : CommandLineSettings)
    (app : manifest.Application ρ) :
    OverrideManifestSettings fp s app =
      { BuildpackName := if s.BuildpackName ≠ "" then s.BuildpackName else app.BuildpackName
        Command := if s.Command ≠ "" then s.Command else app.Command
        DiskQuota := if s.DiskQuota ≠ 0 then s.DiskQuota else app.DiskQuota
        DockerImage := if s.DockerImage ≠ "" then s.DockerImage else app.DockerImage
        DockerPassword := if s.DockerPassword ≠ "" then s.DockerPassword else app.DockerPassword
        DockerUsername := if s.DockerUsername ≠ "" then s.DockerUsername else app.DockerUsername
        HealthCheckTimeout :=
          if s.HealthCheckTimeout ≠ 0 then s.HealthCheckTimeout else app.HealthCheckTimeout
        HealthCheckType :=
          if s.HealthCheckType ≠ "" then s.HealthCheckType else app.HealthCheckType
        Instances := if s.Instances.IsSet then s.Instances else app.Instances
        Memory := if s.Memory ≠ 0 then s.Memory else app.Memory
        Name := if s.Name ≠ "" then s.Name else app.Name
        Path :=
          if (if s.ProvidedAppPath ≠ "" then absoluteProvidedAppPath fp s else app.Path) = ""
          then s.CurrentDirectory
          else (if s.ProvidedAppPath ≠ "" then absoluteProvidedAppPath fp s else app.Path)
        StackName := if s.StackName ≠ "" then s.StackName else app.StackName
        other := app.other } := by
  cases app
  simp only [OverrideManifestSettings, ite_mk, ite_self]

/-- C1. Every scalar field that the CLI sets wins in the merge: a non-empty
string field, a non-zero numeric field, or an `Instances` whose `IsSet` is true
is the value of the same field of `OverrideManifestSettings s app`, whatever
the manifest held. -/
theorem cli_set_field_wins (fp : filepath.Impl) (s : CommandLineSettings)
    (app : manifest.Application ρ) :
    (s.BuildpackName ≠ "" →
      (OverrideManifestSettings fp s app).BuildpackName = s.BuildpackName) ∧
    (s.Command ≠ "" → (OverrideManifestSettings fp s app).Command = s.Command) ∧
    (s.DockerImage ≠ "" → (OverrideManifestSettings fp s app).DockerImage = s.DockerImage) ∧
    (s.DockerUsername ≠ "" →
      (OverrideManifestSettings fp s app).DockerUsername = s.DockerUsername) ∧
    (s.DockerPassword ≠ "" →
      (OverrideManifestSettings fp s app).DockerPassword = s.DockerPassword) ∧
    (s.HealthCheckType ≠ "" →
      (OverrideManifestSettings fp s app).HealthCheckType = s.HealthCheckType) ∧
    (s.Name ≠ "" → (OverrideManifestSettings fp s app).Name = s.Name) ∧
    (s.StackName ≠ "" → (OverrideManifestSettings fp s app).StackName = s.StackName) ∧
    (s.DiskQuota ≠ 0 → (OverrideManifestSettings fp s app).DiskQuota = s.DiskQuota) ∧
    (s.Memory ≠ 0 → (OverrideManifestSettings fp s app).Memory = s.Memory) ∧
    (s.HealthCheckTimeout ≠ 0 →
      (OverrideManifestSettings fp s app).HealthCheckTimeout = s.HealthCheckTimeout) ∧
    (s.Instances.IsSet = true →
      (OverrideManifestSettings fp s app).Instances = s.Instances) := by
  rw [OverrideManifestSettings_eq]
  refine ⟨?_, ?_, ?_, ?_, ?_, ?_, ?_, ?_, ?_, ?_, ?_, ?_⟩ <;> intro h <;> simp [h]

/-- Witness of C1: with every CLI field set, each field of the merge of
`sample.cliAll` into `sample.manifestApp` is the CLI value. -/
theorem cli_set_field_wins_witness :
    (OverrideManifestSettings filepath.unix sample.cliAll sample.manifestApp).BuildpackName
        = "java_buildpack" ∧
    (OverrideManifestSettings filepath.unix sample.cliAll sample.manifestApp).Command
        = "run.sh" ∧
    (OverrideManifestSettings filepath.unix sample.cliAll sample.manifestApp).DockerImage
        = "registry/img" ∧
    (OverrideManifestSettings filepath.unix sample.cliAll sample.manifestApp).DockerUsername
        = "user" ∧
    (OverrideManifestSettings filepath.unix sample.cliAll sample.manifestApp).DockerPassword
        = "pw" ∧
    (OverrideManifestSettings filepath.unix sample.cliAll sample.manifestApp).HealthCheckType
        = "port" ∧
    (OverrideManifestSettings filepath.unix sample.cliAll sample.manifestApp).Name = "foo" ∧
    (OverrideManifestSettings filepath.unix sample.cliAll sample.manifestApp).StackName
        = "cflinuxfs2" ∧
    (OverrideManifestSettings filepath.unix sample.cliAll sample.manifestApp).DiskQuota = 512 ∧
    (OverrideManifestSettings filepath.unix sample.cliAll sample.manifestApp).Memory = 256 ∧
    (OverrideManifestSettings filepath.unix sample.cliAll sample.manifestApp).HealthCheckTimeout
        = 30 ∧
    (OverrideManifestSettings filepath.unix sample.cliAll sample.manifestApp).Instances
        = ⟨0, true⟩ :=
  have h := cli_set_field_wins filepath.unix sample.cliAll sample.manifestApp
  ⟨h.1 (by decide), h.2.1 (by decide), h.2.2.1 (by decide), h.2.2.2.1 (by decide),
    h.2.2.2.2.1 (by decide), h.2.2.2.2.2.1 (by decide), h.2.2.2.2.2.2.1 (by decide),
    h.2.2.2.2.2.2.2.1 (by decide), h.2.2.2.2.2.2.2.2.1 (by decide),
    h.2.2.2.2.2.2.2.2.2.1 (by decide), h.2.2.2.2.2.2.2.2.2.2.1 (by decide),
    h.2.2.2.2.2.2.2.2.2.2.2 (by decide)⟩

/-- C2. An unset CLI field never clobbers the manifest value: for an empty
string field, a zero numeric field or an `Instances` with `IsSet` false, the
field of `OverrideManifestSettings s app` is the field of `app`; and with an
empty `ProvidedAppPath` a non-empty manifest path is kept. -/
theorem unset_cli_field_keeps_manifest (fp : filepath.Impl) (s : CommandLineSettings)
    (app : manifest.Application ρ) :
    (s.BuildpackName = "" →
      (OverrideManifestSettings fp s app).BuildpackName = app.BuildpackName) ∧
    (s.Command = "" → (OverrideManifestSettings fp s app).Command = app.Command) ∧
    (s.DockerImage = "" → (OverrideManifestSettings fp s app).DockerImage = app.DockerImage) ∧
    (s.DockerUsername = "" →
      (OverrideManifestSettings fp s app).DockerUsername = app.DockerUsername) ∧
    (s.DockerPassword = "" →
      (OverrideManifestSettings fp s app).DockerPassword = app.DockerPassword) ∧
    (s.HealthCheckType = "" →
      (OverrideManifestSettings fp s app).HealthCheckType = app.HealthCheckType) ∧
    (s.Name = "" → (OverrideManifestSettings fp s app).Name = app.Name) ∧
    (s.StackName = "" → (OverrideManifestSettings fp s app).StackName = app.StackName) ∧
    (s.DiskQuota = 0 → (OverrideManifestSettings fp s app).DiskQuota = app.DiskQuota) ∧
    (s.Memory = 0 → (OverrideManifestSettings fp s app).Memory = app.Memory) ∧
    (s.HealthCheckTimeout = 0 →
      (OverrideManifestSettings fp s app).HealthCheckTimeout = app.HealthCheckTimeout) ∧
    (s.Instances.IsSet = false →
      (OverrideManifestSettings fp s app).Instances = app.Instances) ∧
    (s.ProvidedAppPath = "" → app.Path ≠ "" →
      (OverrideManifestSettings fp s app).Path = app.Path) := by
  rw [OverrideManifestSettings_eq]
  refine ⟨?_, ?_, ?_, ?_, ?_, ?_, ?_, ?_, ?_, ?_, ?_, ?_, ?_⟩ <;> intro h
  all_goals first
    | (intro h2; simp [h, h2])
    | simp [h]

/-- Witness of C2: with no CLI field set, the merge of `sample.cliNone` into
`sample.manifestApp` keeps every manifest field, the path included. -/
theorem unset_cli_field_keeps_manifest_witness :
    OverrideManifestSettings filepath.unix sample.cliNone sample.manifestApp
      = sample.manifestApp := by
  have h := unset_cli_field_keeps_manifest filepath.unix sample.cliNone sample.manifestApp
  have h1 := h.1 (by decide)
  have h2 := h.2.1 (by decide)
  have h3 := h.2.2.1 (by decide)
  have h4 := h.2.2.2.1 (by decide)
  have h5 := h.2.2.2.2.1 (by decide)
  have h6 := h.2.2.2.2.2.1 (by decide)
  have h7 := h.2.2.2.2.2.2.1 (by decide)
  have h8 := h.2.2.2.2.2.2.2.1 (by decide)
  have h9 := h.2.2.2.2.2.2.2.2.1 (by decide)
  have h10 := h.2.2.2.2.2.2.2.2.2.1 (by decide)
  have h11 := h.2.2.2.2.2.2.2.2.2.2.1 (by decide)
  have h12 := h.2.2.2.2.2.2.2.2.2.2.2.1 (by decide)
  have h13 := h.2.2.2.2.2.2.2.2.2.2.2.2 (by decide) (by decide)
  have h14 : (OverrideManifestSettings filepath.unix sample.cliNone sample.manifestApp).other
      = sample.manifestApp.other := rfl
  generalize OverrideManifestSettings filepath.unix sample.cliNone sample.manifestApp = r at *
  cases r
  simp only at *
  subst_vars
  rfl

/-- Counterexample to C3 as stated: for the manifest `sample.manifestZero`,
which itself asks for zero instances, the merge with `Instances` unset and the
merge with `Instances` explicitly `0` are the same record. -/
theorem explicit_zero_same_record_counterexample :
    sample.cliNone.Instances.IsSet = false ∧
    OverrideManifestSettings filepath.unix sample.cliNone sample.manifestZero =
      OverrideManifestSettings filepath.unix
        { sample.cliNone with Instances := ⟨0, true⟩ } sample.manifestZero := by
  decide

/-- C3, amended. For two settings that differ in `Instances` only, the first
unset and the second explicitly `0`: the second merge carries the explicit `0`
(`IsSet` true, `Value` 0), the first carries the manifest's `Instances`, and the
two results are different records exactly when the manifest's `Instances` is
not itself an explicit `0`. -/
theorem explicit_zero_instances_preserved (fp : filepath.Impl) (app : manifest.Application ρ)
    (s1 s2 : CommandLineSettings) (h1 : s1.Instances.IsSet = false)
    (h2 : s2 = { s1 with Instances := ⟨0, true⟩ }) :
    (OverrideManifestSettings fp s2 app).Instances = ⟨0, true⟩ ∧
    (OverrideManifestSettings fp s1 app).Instances = app.Instances ∧
    (OverrideManifestSettings fp s1 app ≠ OverrideManifestSettings fp s2 app ↔
      app.Instances ≠ ⟨0, true⟩) := by
  subst h2
  rw [OverrideManifestSettings_eq, OverrideManifestSettings_eq]
  simp [h1, absoluteProvidedAppPath]

/-- Witness of C3 amended: the manifest `sample.manifestApp` asks for three
instances, so the two merges differ. -/
theorem explicit_zero_instances_preserved_witness :
    OverrideManifestSettings filepath.unix sample.cliNone sample.manifestApp ≠
      OverrideManifestSettings filepath.unix
        { sample.cliNone with Instances := ⟨0, true⟩ } sample.manifestApp :=
  (explicit_zero_instances_preserved filepath.unix sample.manifestApp sample.cliNone
    { sample.cliNone with Instances := ⟨0, true⟩ } (by decide) rfl).2.2.2 (by decide)

/-- C4. With a non-empty `ProvidedAppPath`, `ApplicationPath` is that path
unchanged when it is absolute and the join of `CurrentDirectory` with it when it
is relative; on Unix the join is the cleaned concatenation, `./dist` under
`/home/u/app` resolves to `/home/u/app/dist`, and `/abs/dist` stays
`/abs/dist`. -/
theorem ApplicationPath_resolution (fp : filepath.Impl) (s : CommandLineSettings)
    (h : s.ProvidedAppPath ≠ "") :
    (fp.IsAbs s.ProvidedAppPath = true → ApplicationPath fp s = s.ProvidedAppPath) ∧
    (fp.IsAbs s.ProvidedAppPath = false →
      ApplicationPath fp s = fp.Join s.CurrentDirectory s.ProvidedAppPath) ∧
    (s.CurrentDirectory ≠ "" → filepath.unixIsAbs s.ProvidedAppPath = false →
      ApplicationPath filepath.unix s =
        filepath.Clean (s.CurrentDirectory ++ "/" ++ s.ProvidedAppPath)) ∧
    ApplicationPath filepath.unix
      { s with ProvidedAppPath := "./dist", CurrentDirectory := "/home/u/app" }
        = "/home/u/app/dist" ∧
    ApplicationPath filepath.unix { s with ProvidedAppPath := "/abs/dist" } = "/abs/dist" := by
  refine ⟨?_, ?_, ?_, ?_, ?_⟩
  · intro habs
    simp [ApplicationPath, absoluteProvidedAppPath, h, habs]
  · intro habs
    simp [ApplicationPath, absoluteProvidedAppPath, h, habs]
  · intro hcur habs
    simp [ApplicationPath, absoluteProvidedAppPath, h, filepath.unix, habs, filepath.unixJoin,
      hcur]
  · simp only [ApplicationPath, absoluteProvidedAppPath]
    decide
  · have habs : filepath.unix.IsAbs "/abs/dist" = true := by decide
    have hne : "/abs/dist" ≠ "" := by decide
    simp only [ApplicationPath, absoluteProvidedAppPath, habs, hne, ne_eq, not_false_eq_true,
      not_true_eq_false, if_true, if_false]

/-- Witness of C4: the settings `sample.cliAll` have the relative path `./dist`
and the working directory `/home/u/app`. -/
theorem ApplicationPath_resolution_witness :
    ApplicationPath filepath.unix sample.cliAll = "/home/u/app/dist" :=
  ((ApplicationPath_resolution filepath.unix sample.cliAll (by decide)).2.1 (by decide)).trans
    (by decide)

/-- C5. With a non-empty `ProvidedAppPath` the path of the merge is the same
for every manifest application and is `ApplicationPath s`: a relative CLI path
is resolved against the working directory, the result being
`Join s.CurrentDirectory s.ProvidedAppPath`, an absolute one is taken as it is,
and the manifest path plays no part. The hypothesis on `Join` is the contract of
Go's `filepath.Join`, whose result is empty only when every element is empty. -/
theorem provided_path_ignores_manifest (fp : filepath.Impl)
    (hJoin : ∀ a b : String, b ≠ "" → fp.Join a b ≠ "")
    (s : CommandLineSettings) (app1 app2 : manifest.Application ρ)
    (h : s.ProvidedAppPath ≠ "") :
    (OverrideManifestSettings fp s app1).Path = (OverrideManifestSettings fp s app2).Path ∧
    (OverrideManifestSettings fp s app1).Path = ApplicationPath fp s ∧
    (OverrideManifestSettings fp s app2).Path = ApplicationPath fp s ∧
    (fp.IsAbs s.ProvidedAppPath = false →
      (OverrideManifestSettings fp s app1).Path = fp.Join s.CurrentDirectory s.ProvidedAppPath ∧
      (OverrideManifestSettings fp s app2).Path =
        fp.Join s.CurrentDirectory s.ProvidedAppPath) ∧
    (fp.IsAbs s.ProvidedAppPath = true →
      (OverrideManifestSettings fp s app1).Path = s.ProvidedAppPath ∧
      (OverrideManifestSettings fp s app2).Path = s.ProvidedAppPath) := by
  have habs : absoluteProvidedAppPath fp s ≠ "" := by
    unfold absoluteProvidedAppPath
    split
    · exact hJoin _ _ h
    · exact h
  have hp : ∀ app : manifest.Application ρ,
      (OverrideManifestSettings fp s app).Path = absoluteProvidedAppPath fp s := by
    intro app
    rw [OverrideManifestSettings_eq]
    simp [h, habs]
  have hA : ApplicationPath fp s = absoluteProvidedAppPath fp s := by
    simp [ApplicationPath, h]
  rw [hp app1, hp app2, hA]
  refine ⟨rfl, rfl, rfl, ?_, ?_⟩
  · intro hrel
    simp [absoluteProvidedAppPath, hrel]
  · intro hrel
    simp [absoluteProvidedAppPath, hrel]

/-- Witness of C5: on Unix, the relative path `./dist` of `sample.cliAll` is
resolved against its working directory `/home/u/app`, whether merged into
`sample.manifestApp` (whose path is `/srv/manifest/bits`) or into
`sample.manifestZero` (which has no path). -/
theorem provided_path_ignores_manifest_witness :
    (OverrideManifestSettings filepath.unix sample.cliAll sample.manifestApp).Path
      = "/home/u/app/dist" ∧
    (OverrideManifestSettings filepath.unix sample.cliAll sample.manifestZero).Path
      = "/home/u/app/dist" ∧
    ApplicationPath filepath.unix sample.cliAll = "/home/u/app/dist" := by
  have hw := provided_path_ignores_manifest filepath.unix filepath.unixJoin_ne_empty
    sample.cliAll sample.manifestApp sample.manifestZero (by decide)
  have hj : filepath.unix.Join sample.cliAll.CurrentDirectory sample.cliAll.ProvidedAppPath
      = "/home/u/app/dist" := by decide
  have hrel := hw.2.2.2.1 (by decide)
  exact ⟨hrel.1.trans hj, hrel.2.trans hj, (hw.2.1.symm.trans hrel.1).trans hj⟩

/-- C6. When no path is supplied at all the working directory is the deploy
path: with an empty `ProvidedAppPath`, `ApplicationPath s` is
`s.CurrentDirectory`, and so is the path of the merge into a manifest
application whose `Path` is empty too. -/
theorem no_path_uses_current_directory (fp : filepath.Impl) (s : CommandLineSettings)
    (app : manifest.Application ρ) (h : s.ProvidedAppPath = "") :
    ApplicationPath fp s = s.CurrentDirectory ∧
    (app.Path = "" → (OverrideManifestSettings fp s app).Path = s.CurrentDirectory) := by
  rw [OverrideManifestSettings_eq]
  refine ⟨by simp [ApplicationPath, h], fun hp => by simp [h, hp]⟩

/-- Witness of C6: `sample.cliNone` and `sample.manifestZero` give no path, the
deploy path is the working directory `/home/u/app`. -/
theorem no_path_uses_current_directory_witness :
    ApplicationPath filepath.unix sample.cliNone = "/home/u/app" ∧
    (OverrideManifestSettings filepath.unix sample.cliNone sample.manifestZero).Path
      = "/home/u/app" :=
  have h := no_path_uses_current_directory filepath.unix sample.cliNone sample.manifestZero
    (by decide)
  ⟨h.1, h.2 (by decide)⟩

/-- Counterexample to C7 as stated: the CLI supplies a docker image and a
non-empty working directory, and the merge has both `Path` and `DockerImage`
set. -/
theorem path_and_docker_both_set_counterexample :
    sample.cliAll.CurrentDirectory ≠ "" ∧
    ¬ Xor'
      ((OverrideManifestSettings filepath.unix sample.cliAll sample.manifestApp).Path ≠ "")
      ((OverrideManifestSettings filepath.unix sample.cliAll sample.manifestApp).DockerImage
        ≠ "") := by
  decide

/-- C7, amended. With a non-empty `CurrentDirectory` the `Path` of the merge is
always set, so exactly one of `Path` and `DockerImage` is set if and only if
neither the CLI nor the manifest supplies a docker image; when either does,
both are set. -/
theorem path_always_set (fp : filepath.Impl) (s : CommandLineSettings)
    (app : manifest.Application ρ) (hcur : s.CurrentDirectory ≠ "") :
    (OverrideManifestSettings fp s app).Path ≠ "" ∧
    (Xor' ((OverrideManifestSettings fp s app).Path ≠ "")
        ((OverrideManifestSettings fp s app).DockerImage ≠ "") ↔
      s.DockerImage = "" ∧ app.DockerImage = "") ∧
    ((s.DockerImage ≠ "" ∨ app.DockerImage ≠ "") →
      (OverrideManifestSettings fp s app).Path ≠ "" ∧
      (OverrideManifestSettings fp s app).DockerImage ≠ "") := by
  have hp : (OverrideManifestSettings fp s app).Path ≠ "" := by
    rw [OverrideManifestSettings_eq]
    simp only []
    split_ifs <;> assumption
  have hd : (OverrideManifestSettings fp s app).DockerImage ≠ "" ↔
      ¬ (s.DockerImage = "" ∧ app.DockerImage = "") := by
    rw [OverrideManifestSettings_eq]
    by_cases hs : s.DockerImage = "" <;> simp [hs]
  refine ⟨hp, ?_, ?_⟩
  · simp only [Xor', hd, hp, ne_eq, not_true_eq_false, not_false_eq_true, and_false, or_false,
      true_and, not_not, false_and]
  · intro h
    refine ⟨hp, hd.mpr ?_⟩
    rintro ⟨h1, h2⟩
    rcases h with h | h
    · exact h h1
    · exact h h2

/-- Witness of C7 amended: `sample.cliNone` and `sample.manifestApp` supply no
docker image, and exactly one of `Path` and `DockerImage` is set. -/
theorem path_always_set_witness :
    Xor'
      ((OverrideManifestSettings filepath.unix sample.cliNone sample.manifestApp).Path ≠ "")
      ((OverrideManifestSettings filepath.unix sample.cliNone sample.manifestApp).DockerImage
        ≠ "") :=
  (path_always_set filepath.unix sample.cliNone sample.manifestApp (by decide)).2.1.mpr
    (by decide)

/-- C9. The merge is idempotent in the manifest argument:
`OverrideManifestSettings s (OverrideManifestSettings s app)` is
`OverrideManifestSettings s app`, the `Path` field included. -/
theorem OverrideManifestSettings_idempotent (fp : filepath.Impl) (s : CommandLineSettings)
    (app : manifest.Application ρ) :
    OverrideManifestSettings fp s (OverrideManifestSettings fp s app) =
      OverrideManifestSettings fp s app := by
  rw [OverrideManifestSettings_eq fp s (OverrideManifestSettings fp s app),
    OverrideManifestSettings_eq fp s app]
  simp only [manifest.Application.mk.injEq]
  refine ⟨?_, ?_, ?_, ?_, ?_, ?_, ?_, ?_, ?_, ?_, ?_, ?_, ?_, ?_⟩ <;>
    first
      | rfl
      | trivial
      | (split_ifs <;> simp_all)

end pushaction

/-! ## Slices and the summary table -/

namespace goslice

theorem getD_store_append (st : Store) (cells : List Row) (a : Nat) (h : a < st.length) :
    (st ++ [cells]).getD a [] = st.getD a [] := by
  simp [List.getElem?_append_left h]

theorem getD_store_fresh (st : Store) (cells : List Row) :
    (st ++ [cells]).getD st.length [] = cells := by
  simp

theorem getD_store_set_self (st : Store) (cells : List Row) (a : Nat) (h : a < st.length) :
    (st.set a cells).getD a [] = cells := by
  simp [h]

theorem getD_store_set_ne (st : Store) (cells : List Row) (a b : Nat) (h : a ≠ b) :
    (st.set a cells).getD b [] = st.getD b [] := by
  simp [h]

theorem elems_length {st : Store} {s : Slice} (h : Valid st s) : (elems st s).length = s.len := by
  obtain ⟨_, h2, h3⟩ := h
  simp only [elems, List.length_take, List.length_drop]
  omega

theorem literal_valid (st : Store) (rows : List Row) :
    Valid (literal st rows).1 (literal st rows).2 := by
  simp [Valid, literal]

theorem literal_elems (st : Store) (rows : List Row) :
    elems (literal st rows).1 (literal st rows).2 = rows := by
  simp [elems, literal]

theorem literal_frame {st : Store} {t : Slice} (rows : List Row) (h : Valid st t) :
    Valid (literal st rows).1 t ∧ elems (literal st rows).1 t = elems st t := by
  obtain ⟨h1, h2, h3⟩ := h
  have hg := getD_store_append st rows t.array h1
  refine ⟨⟨?_, ?_, h3⟩, ?_⟩
  · simp only [literal, List.length_append, List.length_singleton]
    omega
  · simp only [literal]
    rw [hg]
    exact h2
  · simp only [literal, elems]
    rw [hg]

theorem sliceTo_spec {st : Store} {s : Slice} (j : Nat) (h : Valid st s) (hj : j ≤ s.len) :
    ∃ t, sliceTo s j = some t ∧ t.array = s.array ∧ Valid st t ∧
      elems st t = (elems st s).take j := by
  obtain ⟨h1, h2, h3⟩ := h
  refine ⟨{ s with len := j }, ?_, rfl, ⟨h1, h2, ?_⟩, ?_⟩
  · simp only [sliceTo]
    rw [if_pos (by omega)]
  · show j ≤ s.cap
    omega
  · simp only [elems, List.take_take]
    rw [Nat.min_eq_left hj]

theorem sliceFrom_spec {st : Store} {s : Slice} (i : Nat) (h : Valid st s) (hi : i ≤ s.len) :
    ∃ t, sliceFrom s i = some t ∧ t.array = s.array ∧ Valid st t ∧
      elems st t = (elems st s).drop i := by
  obtain ⟨h1, h2, h3⟩ := h
  refine ⟨⟨s.array, s.off + i, s.len - i, s.cap - i⟩, ?_, rfl, ⟨h1, ?_, ?_⟩, ?_⟩
  · simp only [sliceFrom]
    rw [if_pos hi]
  · show s.off + i + (s.cap - i) ≤ (st.getD s.array []).length
    omega
  · show s.len - i ≤ s.cap - i
    omega
  · simp only [elems, List.drop_take, List.drop_drop]

theorem writeAt_length (cells : List Row) (pos : Nat) (xs : List Row)
    (h : pos + xs.length ≤ cells.length) : (writeAt cells pos xs).length = cells.length := by
  simp only [writeAt, List.length_append, List.length_take, List.length_drop]
  omega

theorem writeAt_read (cells : List Row) (off len : Nat) (xs : List Row)
    (h : off + len + xs.length ≤ cells.length) :
    ((writeAt cells (off + len) xs).drop off).take (len + xs.length) =
      (cells.drop off).take len ++ xs := by
  have hA : (cells.take (off + len)).length = off + len := by
    rw [List.length_take]
    omega
  simp only [writeAt, List.append_assoc]
  rw [List.drop_append_of_le_length (by omega), List.drop_take, ← List.append_assoc]
  rw [List.take_left']
  · congr 2
    omega
  · simp only [List.length_append, List.length_take, List.length_drop]
    omega

theorem append_valid {st : Store} {s : Slice} (grow : Nat → Nat → Nat) (xs : List Row)
    (h : Valid st s) : Valid (append grow st s xs).1 (append grow st s xs).2 := by
  obtain ⟨h1, h2, h3⟩ := h
  unfold append
  split
  · refine ⟨?_, ?_, ?_⟩
    · simpa using h1
    · show s.off + s.cap ≤ _
      rw [getD_store_set_self _ _ _ h1, writeAt_length _ _ _ (by omega)]
      exact h2
    · assumption
  · refine ⟨?_, ?_, ?_⟩
    · simp
    · show 0 + max _ _ ≤ _
      rw [getD_store_fresh]
      have : (elems st s).length = s.len := elems_length ⟨h1, h2, h3⟩
      simp only [List.length_append, List.length_replicate, this]
      omega
    · show s.len + xs.length ≤ max _ _
      omega

theorem append_elems {st : Store} {s : Slice} (grow : Nat → Nat → Nat) (xs : List Row)
    (h : Valid st s) :
    elems (append grow st s xs).1 (append grow st s xs).2 = elems st s ++ xs := by
  obtain ⟨h1, h2, h3⟩ := h
  unfold append
  split
  · show List.take _ (List.drop _ (List.getD (st.set _ _) _ _)) = _
    rw [getD_store_set_self _ _ _ h1]
    exact writeAt_read (st.getD s.array []) s.off s.len xs (by omega)
  · have hl : (elems st s).length = s.len := elems_length ⟨h1, h2, h3⟩
    show List.take _ (List.drop 0 (List.getD (st ++ _) st.length _)) = _
    rw [getD_store_fresh, List.drop_zero]
    apply List.take_left'
    simp [hl]

theorem append_frame {st : Store} {s t : Slice} (grow : Nat → Nat → Nat) (xs : List Row)
    (h : Valid st t) (hne : s.array ≠ t.array) :
    Valid (append grow st s xs).1 t ∧ elems (append grow st s xs).1 t = elems st t := by
  obtain ⟨h1, h2, h3⟩ := h
  unfold append
  split
  · have hg := getD_store_set_ne st (writeAt (st.getD s.array []) (s.off + s.len) xs) _ _ hne
    refine ⟨⟨by simpa using h1, ?_, h3⟩, ?_⟩
    · show t.off + t.cap ≤ (List.getD (st.set _ _) _ _).length
      rw [hg]
      exact h2
    · show List.take _ (List.drop _ (List.getD (st.set _ _) _ _)) = _
      rw [hg]
      rfl
  · exact literal_frame _ ⟨h1, h2, h3⟩

end goslice

namespace shared

open goslice

variable {Route Time Instance : Type}

/-- The rows `table` holds before the isolation segment is looked at. -/
theorem tableBeforeIsolationSegment_spec (grow : Nat → Nat → Nat)
    (ext : Externals Route Time Instance) (ui : command.UI Time) (st : Store)
    (appSummary : v2action.ApplicationSummary Route Time Instance) (displayStartCommand : Bool) :
    Valid (tableBeforeIsolationSegment grow ext ui st appSummary displayStartCommand).1
      (tableBeforeIsolationSegment grow ext ui st appSummary displayStartCommand).2 ∧
    elems (tableBeforeIsolationSegment grow ext ui st appSummary displayStartCommand).1
      (tableBeforeIsolationSegment grow ext ui st appSummary displayStartCommand).2 =
      tableLiteral ext ui appSummary ++
        (if displayStartCommand = true then [startCommandRow ui appSummary] else []) := by
  have hv := literal_valid st (tableLiteral ext ui appSummary)
  have he := literal_elems st (tableLiteral ext ui appSummary)
  unfold tableBeforeIsolationSegment
  cases displayStartCommand
  · simpa using ⟨hv, he⟩
  · simp only [if_true]
    exact ⟨append_valid grow _ hv, by rw [append_elems grow _ hv, he]⟩

theorem tableLiteral_length (ext : Externals Route Time Instance) (ui : command.UI Time)
    (appSummary : v2action.ApplicationSummary Route Time Instance) :
    (tableLiteral ext ui appSummary).length = 8 := rfl

/-- The table handed to the UI, as a list: the rows before the isolation
segment, with the isolation segment row spliced in at index 3 when there is
one. No slice expression panics. -/
theorem DisplayAppSummary_eq (grow : Nat → Nat → Nat)
    (ext : Externals Route Time Instance) (ui : command.UI Time) (st : Store)
    (appSummary : v2action.ApplicationSummary Route Time Instance) (displayStartCommand : Bool) :
    DisplayAppSummary grow ext ui st appSummary displayStartCommand =
      some (if appSummary.IsolationSegment ≠ "" then
          (tableLiteral ext ui appSummary ++
            (if displayStartCommand = true then [startCommandRow ui appSummary] else [])).take 3 ++
          ([ui.TranslateText "isolation segment:" [], appSummary.IsolationSegment] ::
          (tableLiteral ext ui appSummary ++
            (if displayStartCommand = true then [startCommandRow ui appSummary] else [])).drop 3)
        else
          tableLiteral ext ui appSummary ++
            (if displayStartCommand = true then [startCommandRow ui appSummary] else [])) := by
  obtain ⟨hv, he⟩ :=
    tableBeforeIsolationSegment_spec grow ext ui st appSummary displayStartCommand
  have hlen := elems_length hv
  rw [he] at hlen
  have h3 : 3 ≤ (tableBeforeIsolationSegment grow ext ui st appSummary displayStartCommand).2.len := by
    rw [← hlen, List.length_append, tableLiteral_length]
    omega
  unfold DisplayAppSummary
  generalize tableBeforeIsolationSegment grow ext ui st appSummary displayStartCommand = p at *
  obtain ⟨st0, table⟩ := p
  simp only at hv he h3 ⊢
  split
  · obtain ⟨head, hh1, hh2, hh3, hh4⟩ := sliceTo_spec 3 hv h3
    obtain ⟨tail, ht1, -, ht3, ht4⟩ := sliceFrom_spec 3 hv h3
    rw [hh1, ht1]
    simp only [Option.pure_def, Option.bind_eq_bind, Option.some_bind, Option.some.injEq]
    have hLv := literal_valid st0
      [[ui.TranslateText "isolation segment:" [], appSummary.IsolationSegment]]
    have hLe := literal_elems st0
      [[ui.TranslateText "isolation segment:" [], appSummary.IsolationSegment]]
    have hLa : (literal st0
        [[ui.TranslateText "isolation segment:" [], appSummary.IsolationSegment]]).2.array
          ≠ head.array := by
      have := hv.1
      show st0.length ≠ head.array
      omega
    obtain ⟨hhead, hheade⟩ := literal_frame
      [[ui.TranslateText "isolation segment:" [], appSummary.IsolationSegment]] hh3
    obtain ⟨-, htaile⟩ := literal_frame
      [[ui.TranslateText "isolation segment:" [], appSummary.IsolationSegment]] ht3
    generalize literal st0
      [[ui.TranslateText "isolation segment:" [], appSummary.IsolationSegment]] = L at *
    obtain ⟨st1, single⟩ := L
    simp only at hLv hLe hLa hhead hheade htaile ⊢
    have hAv := append_valid grow (elems st1 tail) hLv
    have hAe := append_elems grow (elems st1 tail) hLv
    obtain ⟨hhead2, hheade2⟩ := append_frame grow (elems st1 tail) hhead hLa
    generalize append grow st1 single (elems st1 tail) = A at *
    obtain ⟨st2, inner⟩ := A
    simp only at hAv hAe hhead2 hheade2 ⊢
    rw [append_elems grow _ hhead2, hheade2, hheade, hh4, hAe, hLe, htaile, ht4, he]
    rfl
  · rw [he]
    rfl

/-- C8. The start command is shown optionally. The keys of the table handed
to the UI are, in order, those of the eight fixed rows (with `isolation
segment:` after `instances:` when there is an isolation segment), followed by
the key `start command:` exactly when `displayStartCommand` is true; the table
has no other row. When `displayStartCommand` is true the last row is the
`start command:` row and its value is the application's `Command` when
non-empty and its `DetectedStartCommand` otherwise. Reading the rows by their
translated keys, when the UI does not translate another label of the table to
the text of `start command:`: a row with that key exists if and only if
`displayStartCommand` is true, there is then exactly one, and no row before the
last has that key. -/
theorem start_command_row_optional (grow : Nat → Nat → Nat)
    (ext : Externals Route Time Instance) (ui : command.UI Time) (st : Store)
    (appSummary : v2action.ApplicationSummary Route Time Instance) (displayStartCommand : Bool) :
    ∃ table, DisplayAppSummary grow ext ui st appSummary displayStartCommand = some table ∧
      table.map List.head? =
        [some (ui.TranslateText "name:" []), some (ui.TranslateText "requested state:" []),
          some (ui.TranslateText "instances:" [])] ++
        (if appSummary.IsolationSegment ≠ "" then
          [some (ui.TranslateText "isolation segment:" [])] else []) ++
        [some (ui.TranslateText "usage:" []), some (ui.TranslateText "routes:" []),
          some (ui.TranslateText "last uploaded:" []), some (ui.TranslateText "stack:" []),
          some (ui.TranslateText "buildpack:" [])] ++
        (if displayStartCommand = true then [some (ui.TranslateText "start command:" [])]
          else []) ∧
      (∀ row ∈ table, row.length = 2) ∧
      (displayStartCommand = true →
        table.getLast? = some [ui.TranslateText "start command:" [],
          if appSummary.Command ≠ "" then appSummary.Command
          else appSummary.DetectedStartCommand]) ∧
      ((∀ l ∈ ["name:", "requested state:", "instances:", "usage:", "routes:",
          "last uploaded:", "stack:", "buildpack:", "isolation segment:"],
          ui.TranslateText l [] ≠ ui.TranslateText "start command:" []) →
        ((∃ row ∈ table, row.head? = some (ui.TranslateText "start command:" [])) ↔
          displayStartCommand = true) ∧
        (table.filter
            (fun row => decide (row.head? = some (ui.TranslateText "start command:" [])))).length
          = (if displayStartCommand = true then 1 else 0) ∧
        (∀ row ∈ table.dropLast,
          row.head? ≠ some (ui.TranslateText "start command:" []))) := by
  refine ⟨_, DisplayAppSummary_eq grow ext ui st appSummary displayStartCommand, ?_, ?_, ?_, ?_⟩
  · cases displayStartCommand <;> by_cases hi : appSummary.IsolationSegment = "" <;>
      simp [hi, tableLiteral, startCommandRow]
  · cases displayStartCommand <;> by_cases hi : appSummary.IsolationSegment = "" <;>
      simp [hi, tableLiteral, startCommandRow]
  · intro hd
    subst hd
    by_cases hi : appSummary.IsolationSegment = "" <;>
      by_cases hc : appSummary.Command = "" <;>
      simp [hi, hc, tableLiteral, startCommandRow]
  · intro hT
    simp only [List.forall_mem_cons, List.not_mem_nil, false_implies, implies_true,
      and_true] at hT
    obtain ⟨h1, h2, h3, h4, h5, h6, h7, h8, h9⟩ := hT
    refine ⟨?_, ?_, ?_⟩
    · cases displayStartCommand <;> by_cases hi : appSummary.IsolationSegment = "" <;>
        simp [hi, tableLiteral, startCommandRow, h1, h2, h3, h4, h5, h6, h7, h8, h9]
    · cases displayStartCommand <;> by_cases hi : appSummary.IsolationSegment = "" <;>
        simp [hi, tableLiteral, startCommandRow, List.filter_cons, h1, h2, h3, h4, h5, h6, h7,
          h8, h9]
    · cases displayStartCommand <;> by_cases hi : appSummary.IsolationSegment = "" <;>
        simp [hi, tableLiteral, startCommandRow, List.dropLast, h1, h2, h3, h4, h5, h6, h7,
          h8, h9]

/-- Witness of C8: with the untranslated UI the labels are distinct; the
summary `sample.summary` shown with its start command has ten rows, exactly one
of them keyed `start command:`, the last one, holding the detected start
command; shown without it the table has nine rows and none with that key. -/
theorem start_command_row_optional_witness :
    (∃ table, DisplayAppSummary sample.grow sample.ext sample.ui [] sample.summary true
        = some table ∧
      table.map List.head? =
        [some "name:", some "requested state:", some "instances:", some "isolation segment:",
          some "usage:", some "routes:", some "last uploaded:", some "stack:",
          some "buildpack:", some "start command:"] ∧
      table.getLast? = some ["start command:", "bundle exec rackup"] ∧
      (table.filter (fun row => decide (row.head? = some "start command:"))).length = 1) ∧
    (∃ table, DisplayAppSummary sample.grow sample.ext sample.ui [] sample.summary false
        = some table ∧
      table.map List.head? =
        [some "name:", some "requested state:", some "instances:", some "isolation segment:",
          some "usage:", some "routes:", some "last uploaded:", some "stack:",
          some "buildpack:"] ∧
      ¬ ∃ row ∈ table, row.head? = some "start command:") := by
  obtain ⟨t1, h1, hk1, -, h2, h3⟩ :=
    start_command_row_optional sample.grow sample.ext sample.ui [] sample.summary true
  obtain ⟨t2, k1, hk2, -, -, k3⟩ :=
    start_command_row_optional sample.grow sample.ext sample.ui [] sample.summary false
  refine ⟨⟨t1, h1, hk1, h2 rfl, (h3 (by decide)).2.1⟩, ⟨t2, k1, hk2, fun hex => ?_⟩⟩
  exact Bool.false_ne_true (((k3 (by decide)).1).mp hex)

/-- C10. With a non-empty `IsolationSegment` the table handed to the UI is the
table built before the insertion (`base`: name, requested state, instances,
usage, routes, last uploaded, stack, buildpack and the optional start command)
with the one row (`isolation segment:`, `IsolationSegment`) inserted at index 3:
the first three rows and all later rows are those of `base`, in order, whether
`append` writes in place or reallocates; with an empty `IsolationSegment` the
table is `base`. -/
theorem isolation_segment_row_inserted (grow : Nat → Nat → Nat)
    (ext : Externals Route Time Instance) (ui : command.UI Time) (st : Store)
    (appSummary : v2action.ApplicationSummary Route Time Instance) (displayStartCommand : Bool) :
    ((elems (tableBeforeIsolationSegment grow ext ui st appSummary displayStartCommand).1
        (tableBeforeIsolationSegment grow ext ui st appSummary displayStartCommand).2).take 3).map
        List.head? =
      [some (ui.TranslateText "name:" []), some (ui.TranslateText "requested state:" []),
        some (ui.TranslateText "instances:" [])] ∧
    ((elems (tableBeforeIsolationSegment grow ext ui st appSummary displayStartCommand).1
        (tableBeforeIsolationSegment grow ext ui st appSummary displayStartCommand).2).drop 3).map
        List.head? =
      [some (ui.TranslateText "usage:" []), some (ui.TranslateText "routes:" []),
        some (ui.TranslateText "last uploaded:" []), some (ui.TranslateText "stack:" []),
        some (ui.TranslateText "buildpack:" [])] ++
        (if displayStartCommand = true then [some (ui.TranslateText "start command:" [])]
          else []) ∧
    (appSummary.IsolationSegment ≠ "" →
      DisplayAppSummary grow ext ui st appSummary displayStartCommand =
        some
          ((elems (tableBeforeIsolationSegment grow ext ui st appSummary displayStartCommand).1
            (tableBeforeIsolationSegment grow ext ui st appSummary displayStartCommand).2).take 3
          ++ [[ui.TranslateText "isolation segment:" [], appSummary.IsolationSegment]] ++
          (elems (tableBeforeIsolationSegment grow ext ui st appSummary displayStartCommand).1
            (tableBeforeIsolationSegment grow ext ui st appSummary displayStartCommand).2).drop
            3)) ∧
    (appSummary.IsolationSegment = "" →
      DisplayAppSummary grow ext ui st appSummary displayStartCommand =
        some (elems (tableBeforeIsolationSegment grow ext ui st appSummary displayStartCommand).1
          (tableBeforeIsolationSegment grow ext ui st appSummary displayStartCommand).2)) := by
  rw [(tableBeforeIsolationSegment_spec grow ext ui st appSummary displayStartCommand).2,
    DisplayAppSummary_eq]
  refine ⟨?_, ?_, ?_, ?_⟩
  · cases displayStartCommand <;> simp [tableLiteral]
  · cases displayStartCommand <;> simp [tableLiteral, startCommandRow]
  · intro hi
    simp [hi]
  · intro hi
    simp [hi]

/-- Witness of C10: `sample.summary` has the isolation segment `segment-1`;
shown without the start command, its table has the isolation segment row at
index 3 and nine rows in all. -/
theorem isolation_segment_row_inserted_witness :
    DisplayAppSummary sample.grow sample.ext sample.ui [] sample.summary false =
      some [["name:", "foo"], ["requested state:", "started"], ["instances:", "1/2"],
        ["isolation segment:", "segment-1"],
        ["usage:", "\x7b\x7b.MemorySize\x7d\x7d x \x7b\x7b.NumInstances\x7d\x7d instances"],
        ["routes:", "foo.example.com, foo.example.com"],
        ["last uploaded:", "Mon 02 Jan 2006 15:04:05 UTC"], ["stack:", "cflinuxfs2"],
        ["buildpack:", "ruby_buildpack"]] :=
  ((isolation_segment_row_inserted sample.grow sample.ext sample.ui [] sample.summary
    false).2.2.1 (by decide)).trans (by decide)

end shared
